import Mathlib

/-!
# Shallow embedding of `buttond`

`buttond` is a small daemon that turns evdev button press/release streams
into external command invocations, distinguishing short presses from one or
more tiers of long presses, with a 10 ms debounce window.

This file embeds the core algorithms of the two source revisions
(`src/buttond.c`, the newer revision, and the older revision found in
`src/unnamed/part_000`) as executable Lean definitions and proves the
specification claims about them.

Conventions of the embedding:
* C `struct timeval` / `struct timespec` become `Timeval` / `Timespec` with
  unbounded `Int` fields; the C arithmetic is on 64-bit `long`/`int64_t`,
  which never overflows for the second/nanosecond magnitudes that can reach
  these functions, so `Int` is a faithful model there.
* C integer division/remainder truncate toward zero, which is `Int.tdiv` /
  `Int.tmod` (not Lean's `/` on `Int`, which is Euclidean).
* `clock_gettime(CLOCK_MONOTONIC)` (`time_gettime`) is an effect; functions
  that read the clock take the reading as an explicit `now` parameter.
* `system(action->action)` is a side effect; the scheduler returns the
  command(s) it would run instead of running them.
-/

namespace Buttond

/-! ## Time representations (`struct timeval`, `struct timespec`) -/

structure Timeval where
  tv_sec : Int
  tv_usec : Int
  deriving DecidableEq

structure Timespec where
  tv_sec : Int
  tv_nsec : Int
  deriving DecidableEq

def NSECS_IN_SEC : Int := 1000000000

def NSECS_IN_MSEC : Int := 1000000

def NSECS_IN_USEC : Int := 1000

def USECS_IN_SEC : Int := 1000000

def USECS_IN_MSEC : Int := 1000

def DEFAULT_LONG_PRESS_MSECS : Int := 5000

def DEFAULT_SHORT_PRESS_MSECS : Int := 1000

def DEBOUNCE_MSECS : Int := 10

/-- `time_diff_ts` (part_000 lines 61-64): time difference in msecs. -/
def time_diff_ts (ts1 ts2 : Timespec) : Int :=
  Int.tdiv (ts1.tv_nsec - ts2.tv_nsec) NSECS_IN_MSEC + (ts1.tv_sec - ts2.tv_sec) * 1000

/-- `time_diff_tv` (part_000 lines 66-69): time difference in msecs. -/
def time_diff_tv (tv1 tv2 : Timeval) : Int :=
  Int.tdiv (tv1.tv_usec - tv2.tv_usec) USECS_IN_MSEC + (tv1.tv_sec - tv2.tv_sec) * 1000

/-- `time_tv2ts` (part_000 lines 72-76): convert timeval to timespec and add
offset msec. -/
def time_tv2ts (base : Timeval) (msec : Int) : Timespec :=
  let nsec := base.tv_usec * NSECS_IN_USEC + msec * NSECS_IN_MSEC
  { tv_sec := base.tv_sec + Int.tdiv nsec NSECS_IN_SEC
    tv_nsec := Int.tmod nsec NSECS_IN_SEC }

/-- `time_ts2tv` (part_000 lines 78-82): convert timespec to timeval and add
offset msec. -/
def time_ts2tv (base : Timespec) (msec : Int) : Timeval :=
  let usec := Int.tdiv base.tv_nsec NSECS_IN_USEC + msec * USECS_IN_MSEC
  { tv_sec := base.tv_sec + Int.tdiv usec USECS_IN_SEC
    tv_usec := Int.tmod usec USECS_IN_SEC }

/-- Modelled from the spec: `time_add_ts` is called by the newer revision
(`src/buttond.c` line 135) but defined in `time_utils.c`, which is not under
`src/`.  Per the spec's time-arithmetic contract it adds "a millisecond
offset to a timestamp producing a new timestamp, normalizing overflow into
the seconds field". -/
def time_add_ts (ts : Timespec) (msec : Int) : Timespec :=
  let nsec := ts.tv_nsec + msec * NSECS_IN_MSEC
  { tv_sec := ts.tv_sec + Int.tdiv nsec NSECS_IN_SEC
    tv_nsec := Int.tmod nsec NSECS_IN_SEC }

/-- Total nanosecond value denoted by a timespec. -/
def ts_total_ns (ts : Timespec) : Int := ts.tv_sec * NSECS_IN_SEC + ts.tv_nsec

/-- Total microsecond value denoted by a timeval. -/
def tv_total_us (tv : Timeval) : Int := tv.tv_sec * USECS_IN_SEC + tv.tv_usec

/-- A timespec is normalized when its nanosecond field is in `[0, 10^9)`. -/
def ts_normalized (ts : Timespec) : Prop := 0 ≤ ts.tv_nsec ∧ ts.tv_nsec < NSECS_IN_SEC

/-- A timeval is normalized when its microsecond field is in `[0, 10^6)`. -/
def tv_normalized (tv : Timeval) : Prop := 0 ≤ tv.tv_usec ∧ tv.tv_usec < USECS_IN_SEC

instance (ts : Timespec) : Decidable (ts_normalized ts) := by
  unfold ts_normalized; infer_instance

instance (tv : Timeval) : Decidable (tv_normalized tv) := by
  unfold tv_normalized; infer_instance

/-! ## Data model (`struct action`, `struct key`, `struct input_event`) -/

inductive ActionType where
  | LONG_PRESS
  | SHORT_PRESS
  deriving DecidableEq

structure Action where
  type : ActionType
  trigger_time : Int
  action : String
  deriving DecidableEq

inductive KeyState where
  | KEY_RELEASED
  | KEY_PRESSED
  | KEY_DEBOUNCE
  | KEY_HANDLED
  deriving DecidableEq

structure Key where
  code : Nat
  has_wakeup : Bool
  actions : List Action
  tv_pressed : Timeval
  tv_released : Timeval
  ts_wakeup : Timespec
  state : KeyState
  deriving DecidableEq

/-- One decoded `struct input_event` record. -/
structure InputEvent where
  time : Timeval
  type : Nat
  code : Nat
  value : Int
  deriving DecidableEq

/-! ## Action matcher (`action_match`, `find_key_action`) -/

/-- `action_match` (buttond.c lines 171-180): a LONG_PRESS action matches when
the key was held at least `trigger_time` msecs, a SHORT_PRESS action when it
was released strictly before `trigger_time` msecs. -/
def action_match (action : Action) (time : Int) : Bool :=
  match action.type with
  | ActionType.LONG_PRESS => decide (time ≥ action.trigger_time)
  | ActionType.SHORT_PRESS => decide (time < action.trigger_time)

/-- The scan of `find_key_action` (buttond.c lines 182-189): walk the action
array from the last index down to index 0 and return the first match.
Recursively: try the tail (the higher indices) first, then the head. -/
def find_from_end (time : Int) : List Action → Option Action
  | [] => none
  | a :: rest =>
    match find_from_end time rest with
    | some b => some b
    | none => if action_match a time then some a else none

/-- `find_key_action` (buttond.c lines 182-189). -/
def find_key_action (key : Key) (time : Int) : Option Action :=
  find_from_end time key.actions

/-! ## Key state machine (`handle_key`, both revisions) -/

/-- `handle_key` of the newer revision (buttond.c lines 100-143).

`now` is the `clock_gettime(CLOCK_MONOTONIC)` reading taken by
`time_gettime` when the release branch arms the debounce wakeup.

The C code reads `key->actions[key->action_count-1]`; a configured key always
has at least one action, so the `[]` case of `getLast?` is unreachable in the
program (in C it would be an out-of-bounds read); it is mapped to the
"last action is not LONG_PRESS" branch. -/
def handle_key (event : InputEvent) (now : Timespec) (key : Key) : Key :=
  match key.state with
  | KeyState.KEY_RELEASED | KeyState.KEY_DEBOUNCE =>
    if event.value = 0 then key
    else
      let key1 := if key.state = KeyState.KEY_RELEASED then
          { key with tv_pressed := event.time } else key
      let key2 := { key1 with state := KeyState.KEY_PRESSED }
      match key2.actions.getLast? with
      | some act =>
        if act.type = ActionType.LONG_PRESS then
          { key2 with has_wakeup := true
                      ts_wakeup := time_tv2ts key2.tv_pressed act.trigger_time }
        else
          { key2 with has_wakeup := false }
      | none => { key2 with has_wakeup := false }
  | KeyState.KEY_PRESSED =>
    if event.value ≠ 0 then key
    else
      { key with state := KeyState.KEY_DEBOUNCE
                 tv_released := event.time
                 has_wakeup := true
                 ts_wakeup := time_add_ts now DEBOUNCE_MSECS }
  | KeyState.KEY_HANDLED =>
    if event.value ≠ 0 then key
    else { key with state := KeyState.KEY_RELEASED }

/-- `handle_key` of the older revision (part_000 lines 225-262).  It differs
from the newer one in two places: a press whose last action is not
LONG_PRESS leaves any pending wakeup armed (no `has_wakeup = false` branch),
and the debounce wakeup is based on `tv_pressed`, not on the current time. -/
def handle_key_v0 (event : InputEvent) (key : Key) : Key :=
  match key.state with
  | KeyState.KEY_RELEASED | KeyState.KEY_DEBOUNCE =>
    if event.value = 0 then key
    else
      let key1 := if key.state = KeyState.KEY_RELEASED then
          { key with tv_pressed := event.time } else key
      let key2 := { key1 with state := KeyState.KEY_PRESSED }
      match key2.actions.getLast? with
      | some act =>
        if act.type = ActionType.LONG_PRESS then
          { key2 with has_wakeup := true
                      ts_wakeup := time_tv2ts key2.tv_pressed act.trigger_time }
        else key2
      | none => key2
  | KeyState.KEY_PRESSED =>
    if event.value ≠ 0 then key
    else
      { key with state := KeyState.KEY_DEBOUNCE
                 tv_released := event.time
                 has_wakeup := true
                 ts_wakeup := time_tv2ts key.tv_pressed DEBOUNCE_MSECS }
  | KeyState.KEY_HANDLED =>
    if event.value ≠ 0 then key
    else { key with state := KeyState.KEY_RELEASED }

/-! ## Timeout scheduler (`compute_timeout`, `handle_timeouts`) -/

/-- Loop body of `compute_timeout` (buttond.c lines 151-159). -/
def compute_timeout_step (now : Timespec) (timeout : Int) (key : Key) : Int :=
  if key.has_wakeup then
    let diff := time_diff_ts key.ts_wakeup now
    if diff < 0 then 0
    else if timeout = -1 ∨ diff < timeout then diff
    else timeout
  else timeout

/-- `compute_timeout` (buttond.c lines 145-169), with the clock reading as a
parameter.  The result is the `poll` timeout in msecs, `-1` meaning "no
bound". -/
def compute_timeout (keys : List Key) (now : Timespec) : Int :=
  keys.foldl (compute_timeout_step now) (-1)

/-- `handle_timeouts` (buttond.c lines 191-228) restricted to one key: the new
key value together with the action-matcher evaluations performed (the elapsed
time handed to `find_key_action` and its result; `some` results are the
commands `system()` would run). -/
def handle_timeout_key (now : Timespec) (key : Key) : Key × List (Int × Option Action) :=
  if key.has_wakeup ∧ time_diff_ts key.ts_wakeup now ≤ 0 then
    let key1 := if key.state ≠ KeyState.KEY_DEBOUNCE then
        { key with tv_released := time_ts2tv now 0 } else key
    let diff := time_diff_tv key1.tv_released key1.tv_pressed
    let act := find_key_action key1 diff
    let key2 := { key1 with
        has_wakeup := false
        state := if key1.state = KeyState.KEY_DEBOUNCE then
            KeyState.KEY_RELEASED else KeyState.KEY_HANDLED }
    (key2, [(diff, act)])
  else (key, [])

/-- `handle_timeouts` over the whole key table. -/
def handle_timeouts (keys : List Key) (now : Timespec) :
    List Key × List (Int × Option Action) :=
  (keys.map fun k => (handle_timeout_key now k).1,
   (keys.map fun k => (handle_timeout_key now k).2).flatten)

/-! ## Input routing (`handle_input_event`) -/

/-- The key-lookup loop of `handle_input_event` (buttond.c lines 240-255):
find the first key whose code matches the event's code and run `handle_key`
on it; the returned `Bool` records whether `handle_key` was invoked. -/
def update_matching_key (event : InputEvent) (now : Timespec) :
    List Key → List Key × Bool
  | [] => ([], false)
  | k :: rest =>
    if k.code = event.code then (handle_key event now k :: rest, true)
    else
      let r := update_matching_key event now rest
      (k :: r.1, r.2)

/-- `handle_input_event` (buttond.c lines 230-256).  `dbg` is the global
verbosity level, which in the source only gates `print_key`/`printf` logging
and never affects the key table. -/
def handle_input_event (event : InputEvent) (now : Timespec) (_dbg : Int)
    (keys : List Key) : List Key × Bool :=
  if event.type ≠ 1 then (keys, false)
  else update_matching_key event now keys

/-! ## Configuration front-end (`add_short_action`, `add_long_action`,
`sort_actions`) -/

/-- One `-s`/`-l` key binding with its optional `-t <time>` and its
`-a <command>`, as assembled by `main`'s option loop for a single key. -/
structure KeyBinding where
  long : Bool
  time : Option Int
  cmd : String

/-- `add_short_action` (buttond.c lines 286-297) combined with the `-t`/`-a`
handling of `main`: fails (the C code `xassert`s and exits) when a
SHORT_PRESS action is already present. -/
def add_short_action (acts : List Action) (cmd : String) (t : Option Int) :
    Option (List Action) :=
  if acts.any (fun a => decide (a.type = ActionType.SHORT_PRESS)) then none
  else some (acts ++ [{ type := ActionType.SHORT_PRESS
                        trigger_time := t.getD DEFAULT_SHORT_PRESS_MSECS
                        action := cmd }])

/-- `add_long_action` (buttond.c lines 299-305) combined with the `-t`/`-a`
handling of `main`. -/
def add_long_action (acts : List Action) (cmd : String) (t : Option Int) :
    List Action :=
  acts ++ [{ type := ActionType.LONG_PRESS
             trigger_time := t.getD DEFAULT_LONG_PRESS_MSECS
             action := cmd }]

/-- The option loop of `main` restricted to one key: process the bindings in
command-line order, appending an action for each. -/
def build_actions : List KeyBinding → List Action → Option (List Action)
  | [], acts => some acts
  | b :: bs, acts =>
    if b.long then build_actions bs (add_long_action acts b.cmd b.time)
    else
      match add_short_action acts b.cmd b.time with
      | none => none
      | some acts2 => build_actions bs acts2

/-- The action list the front-end builds for one key from its bindings. -/
def build_key_actions (bs : List KeyBinding) : Option (List Action) :=
  build_actions bs []

/-- `sort_actions_compare` (buttond.c lines 307-319). -/
def sort_actions_compare (a1 a2 : Action) : Int :=
  if a1.type = ActionType.SHORT_PRESS then -1
  else if a2.type = ActionType.SHORT_PRESS then 1
  else if a1.trigger_time < a2.trigger_time then -1
  else if a1.trigger_time > a2.trigger_time then 1
  else 0

/-- The order `qsort` sorts by in `sort_actions`: `a1` may stay before `a2`
when the comparator is non-positive. -/
def action_le (a1 a2 : Action) : Prop := sort_actions_compare a1 a2 ≤ 0

instance : DecidableRel action_le := fun a b => by
  unfold action_le; infer_instance

/-- `sort_actions` (buttond.c lines 320-323).  `qsort` guarantees a
permutation that is sorted with respect to the comparator; the order of
comparator-equal elements is unspecified, and insertion sort realizes one
such permutation. -/
def sort_actions (l : List Action) : List Action := List.insertionSort action_le l

/-! ## Dispatch-loop descriptor handling (`main`, both revisions) -/

/-- What the dispatch loop decides to do with one input source after `poll`
returns, as a function of that source's `revents`. -/
inductive PollOutcome where
  | skipSource
  | readData
  | exitSuccess
  | reopenSource
  | abortFailure
  deriving DecidableEq

def POLLIN : Nat := 1

/-- Per-source `revents` handling of the newer revision's dispatch loop
(buttond.c lines 448-463): `revents == 0` skips the source; `revents`
without `POLLIN` exits successfully in test mode and otherwise reopens the
source (then reads from the new descriptor); otherwise the data is read. -/
def source_revents_outcome (revents : Nat) (tm : Bool) : PollOutcome :=
  if revents = 0 then PollOutcome.skipSource
  else if revents &&& POLLIN = 0 then
    (if tm then PollOutcome.exitSuccess else PollOutcome.reopenSource)
  else PollOutcome.readData

/-- Per-source `revents` handling of the older revision's dispatch loop
(part_000 lines 548-557): identical except that without test mode a
`HUP`/`ERR` condition hits `xassert(false, "got HUP/ERR on %s, aborting")`,
which prints an error and exits with `EXIT_FAILURE`. -/
def source_revents_outcome_v0 (revents : Nat) (tm : Bool) : PollOutcome :=
  if revents = 0 then PollOutcome.skipSource
  else if revents &&& POLLIN = 0 then
    (if tm then PollOutcome.exitSuccess else PollOutcome.abortFailure)
  else PollOutcome.readData

/-! ## Single-key traces

A trace interleaves decoded input events for the key (`handle_key` runs when
the event reaches `handle_input_event` with the key's code and type 1) with
`handle_timeouts` passes; each step carries the monotonic-clock reading at
processing time. -/

inductive LoopStep where
  | input (event : InputEvent) (now : Timespec)
  | timeouts (now : Timespec)

/-- One step of the dispatch loop acting on a single key, returning the
action-matcher evaluations it performed. -/
def run_step (key : Key) : LoopStep → Key × List (Int × Option Action)
  | LoopStep.input event now => (handle_key event now key, [])
  | LoopStep.timeouts now => handle_timeout_key now key

/-- Run a whole trace, concatenating the evaluations of every step. -/
def run_trace (key : Key) : List LoopStep → Key × List (Int × Option Action)
  | [] => (key, [])
  | s :: rest =>
    let r := run_step key s
    let r2 := run_trace r.1 rest
    (r2.1, r.2 ++ r2.2)

/-! ## Spec-side definitions and derived predicates -/

/-- The `deadline - now` values (in msecs) of exactly the keys with
`has_wakeup` set, in table order. -/
def pending_diffs (keys : List Key) (now : Timespec) : List Int :=
  (keys.filter fun k => k.has_wakeup).map fun k => time_diff_ts k.ts_wakeup now

/-- Written from the spec's words for `computeWait()` ("P4 (scheduler
minimality)"): `max(0, min(di) - now)` over the pending deadlines, `-1`
("no bound") when no key has a pending wakeup.  To be compared with
`compute_timeout`. -/
def computeWaitSpec (keys : List Key) (now : Timespec) : Int :=
  match pending_diffs keys now with
  | [] => -1
  | d :: ds => max 0 (ds.foldl min d)

/-- Everything after index 0 is a LONG_PRESS action (so a SHORT_PRESS action
can only sit at index 0). -/
def short_only_first (l : List Action) : Bool :=
  l.tail.all fun a => decide (a.type = ActionType.LONG_PRESS)

/-- Adjacent trigger times are non-decreasing. -/
def longs_nondecr : List Action → Bool
  | [] => true
  | [_] => true
  | a :: b :: l => decide (a.trigger_time ≤ b.trigger_time) && longs_nondecr (b :: l)

/-- Adjacent trigger times are strictly increasing. -/
def longs_strict : List Action → Bool
  | [] => true
  | [_] => true
  | a :: b :: l => decide (a.trigger_time < b.trigger_time) && longs_strict (b :: l)

/-- The shape the data-model invariant gives a key's action list: at most the
head may be a SHORT_PRESS action, and the LONG_PRESS actions' trigger times
are in ascending order. -/
def actions_sorted (l : List Action) : Bool :=
  short_only_first l &&
    longs_nondecr (l.filter fun a => decide (a.type = ActionType.LONG_PRESS))

/-- The wakeup-consistency invariant of the per-key state machine: a
debouncing key always holds a pending deadline, an idle or already-handled
key never does. -/
def key_inv (key : Key) : Bool :=
  match key.state with
  | KeyState.KEY_DEBOUNCE => key.has_wakeup
  | KeyState.KEY_RELEASED => !key.has_wakeup
  | KeyState.KEY_HANDLED => !key.has_wakeup
  | KeyState.KEY_PRESSED => true

/-- A trace step that is either a press event or a `handle_timeouts` pass
(no release events). -/
def press_or_timeout : LoopStep → Bool
  | LoopStep.input event _ => decide (event.value ≠ 0)
  | LoopStep.timeouts _ => true

/-! ## Concrete fixtures -/

/-- The default short-press action (`-s <key> -a s`): 1000 ms. -/
def defaultShort : Action :=
  { type := ActionType.SHORT_PRESS, trigger_time := 1000, action := "s" }

/-- The default long-press action (`-l <key> -a l`): 5000 ms. -/
def defaultLong : Action :=
  { type := ActionType.LONG_PRESS, trigger_time := 5000, action := "l" }

/-- A key with the default short and long actions, as sorted by
`sort_actions`. -/
def defaultsKey : Key :=
  { code := 148, has_wakeup := false, actions := [defaultShort, defaultLong]
    tv_pressed := ⟨0, 0⟩, tv_released := ⟨0, 0⟩, ts_wakeup := ⟨0, 0⟩
    state := KeyState.KEY_RELEASED }

/-- A key with two long-press tiers, 5000 ms and 10000 ms. -/
def tieredKey : Key :=
  { code := 148, has_wakeup := false
    actions := [{ type := ActionType.LONG_PRESS, trigger_time := 5000, action := "l5" },
                { type := ActionType.LONG_PRESS, trigger_time := 10000, action := "l10" }]
    tv_pressed := ⟨0, 0⟩, tv_released := ⟨0, 0⟩, ts_wakeup := ⟨0, 0⟩
    state := KeyState.KEY_RELEASED }

/-- A key configured with only a short-press action, at rest. -/
def shortOnlyKey : Key :=
  { code := 148, has_wakeup := false, actions := [defaultShort]
    tv_pressed := ⟨0, 0⟩, tv_released := ⟨0, 0⟩, ts_wakeup := ⟨0, 0⟩
    state := KeyState.KEY_RELEASED }

/-- A key event for code 148 at `ms` milliseconds, `v ≠ 0` meaning pressed. -/
def ev148 (ms : Int) (v : Int) : InputEvent :=
  { time := ⟨0, ms * 1000⟩, type := 1, code := 148, value := v }

/-- The monotonic clock reading at `ms` milliseconds. -/
def ms_ts (ms : Int) : Timespec := ⟨0, ms * 1000000⟩

/-- The debounce-coalescing scenario of the spec's P1: press at 0 ms, release
at 5 ms, press again at 8 ms (inside the 10 ms debounce window), release at
50 ms, with `handle_timeouts` passes interleaved between the events and one
final pass after the debounce deadline has expired. -/
def debounceTrace : List LoopStep :=
  [LoopStep.input (ev148 0 1) (ms_ts 0),
   LoopStep.timeouts (ms_ts 2),
   LoopStep.input (ev148 5 0) (ms_ts 5),
   LoopStep.timeouts (ms_ts 6),
   LoopStep.input (ev148 8 1) (ms_ts 8),
   LoopStep.timeouts (ms_ts 9),
   LoopStep.timeouts (ms_ts 20),
   LoopStep.input (ev148 50 0) (ms_ts 50),
   LoopStep.timeouts (ms_ts 60)]

/-! ## Helper lemmas: truncating division and time arithmetic -/

theorem tdiv_sub_bound_nonneg {d m : Int} (hm : 0 < m) (hd : 0 ≤ d) :
    -m < d.tdiv m * m - d ∧ d.tdiv m * m - d ≤ 0 := by
  rw [Int.tdiv_eq_ediv hd hm.le]
  have h1 := Int.ediv_add_emod d m
  have h2 := Int.emod_nonneg d (by omega : m ≠ 0)
  have h3 := Int.emod_lt_of_pos d hm
  have h4 : d / m * m = m * (d / m) := mul_comm _ _
  constructor <;> linarith

theorem tdiv_sub_bound {d m : Int} (hm : 0 < m) : |d.tdiv m * m - d| < m := by
  rcases le_or_lt 0 d with hd | hd
  · have := tdiv_sub_bound_nonneg hm hd
    rw [abs_lt]; constructor <;> linarith
  · have hd' : 0 ≤ -d := by linarith
    have := tdiv_sub_bound_nonneg hm hd'
    have hneg : d.tdiv m = -((-d).tdiv m) := by
      rw [Int.neg_tdiv]; ring
    rw [hneg, abs_lt]; constructor <;> nlinarith [this.1, this.2]

theorem time_tv2ts_sec (base : Timeval) (msec : Int) :
    (time_tv2ts base msec).tv_sec =
      base.tv_sec +
        Int.tdiv (base.tv_usec * NSECS_IN_USEC + msec * NSECS_IN_MSEC) NSECS_IN_SEC := rfl

theorem time_tv2ts_nsec (base : Timeval) (msec : Int) :
    (time_tv2ts base msec).tv_nsec =
      Int.tmod (base.tv_usec * NSECS_IN_USEC + msec * NSECS_IN_MSEC) NSECS_IN_SEC := rfl

theorem time_ts2tv_sec (base : Timespec) (msec : Int) :
    (time_ts2tv base msec).tv_sec =
      base.tv_sec +
        Int.tdiv (Int.tdiv base.tv_nsec NSECS_IN_USEC + msec * USECS_IN_MSEC) USECS_IN_SEC := rfl

theorem time_ts2tv_usec (base : Timespec) (msec : Int) :
    (time_ts2tv base msec).tv_usec =
      Int.tmod (Int.tdiv base.tv_nsec NSECS_IN_USEC + msec * USECS_IN_MSEC) USECS_IN_SEC := rfl

theorem time_add_ts_sec (ts : Timespec) (msec : Int) :
    (time_add_ts ts msec).tv_sec =
      ts.tv_sec + Int.tdiv (ts.tv_nsec + msec * NSECS_IN_MSEC) NSECS_IN_SEC := rfl

theorem time_add_ts_nsec (ts : Timespec) (msec : Int) :
    (time_add_ts ts msec).tv_nsec =
      Int.tmod (ts.tv_nsec + msec * NSECS_IN_MSEC) NSECS_IN_SEC := rfl

/-- `time_diff_ts` is the exact difference in msecs up to the sub-millisecond
rounding of the truncating division: the result times `10^6` is within one
millisecond of the exact nanosecond difference. -/
theorem time_diff_ts_close (ts1 ts2 : Timespec) :
    |time_diff_ts ts1 ts2 * NSECS_IN_MSEC - (ts_total_ns ts1 - ts_total_ns ts2)| <
      NSECS_IN_MSEC := by
  have key : time_diff_ts ts1 ts2 * NSECS_IN_MSEC - (ts_total_ns ts1 - ts_total_ns ts2) =
      Int.tdiv (ts1.tv_nsec - ts2.tv_nsec) NSECS_IN_MSEC * NSECS_IN_MSEC -
        (ts1.tv_nsec - ts2.tv_nsec) := by
    unfold time_diff_ts ts_total_ns NSECS_IN_MSEC NSECS_IN_SEC
    ring
  rw [key]
  exact tdiv_sub_bound (by norm_num [NSECS_IN_MSEC])

theorem time_diff_tv_close (tv1 tv2 : Timeval) :
    |time_diff_tv tv1 tv2 * USECS_IN_MSEC - (tv_total_us tv1 - tv_total_us tv2)| <
      USECS_IN_MSEC := by
  have key : time_diff_tv tv1 tv2 * USECS_IN_MSEC - (tv_total_us tv1 - tv_total_us tv2) =
      Int.tdiv (tv1.tv_usec - tv2.tv_usec) USECS_IN_MSEC * USECS_IN_MSEC -
        (tv1.tv_usec - tv2.tv_usec) := by
    unfold time_diff_tv tv_total_us USECS_IN_MSEC USECS_IN_SEC
    ring
  rw [key]
  exact tdiv_sub_bound (by norm_num [USECS_IN_MSEC])

/-- When the sub-millisecond parts agree, `time_diff_ts` is the exact
millisecond difference. -/
theorem time_diff_ts_exact {ts1 ts2 : Timespec}
    (h : NSECS_IN_MSEC ∣ (ts1.tv_nsec - ts2.tv_nsec)) :
    time_diff_ts ts1 ts2 * NSECS_IN_MSEC = ts_total_ns ts1 - ts_total_ns ts2 := by
  have key : time_diff_ts ts1 ts2 * NSECS_IN_MSEC =
      Int.tdiv (ts1.tv_nsec - ts2.tv_nsec) NSECS_IN_MSEC * NSECS_IN_MSEC +
        (ts1.tv_sec - ts2.tv_sec) * 1000 * NSECS_IN_MSEC := by
    unfold time_diff_ts; ring
  rw [key, Int.tdiv_mul_cancel h]
  unfold ts_total_ns NSECS_IN_MSEC NSECS_IN_SEC
  ring

/-- `time_tv2ts` of a normalized timeval and a non-negative offset yields a
normalized timespec denoting `base + msec`. -/
theorem time_tv2ts_spec {base : Timeval} {msec : Int}
    (hb : tv_normalized base) (hm : 0 ≤ msec) :
    ts_normalized (time_tv2ts base msec) ∧
      ts_total_ns (time_tv2ts base msec) = tv_total_us base * 1000 + msec * NSECS_IN_MSEC := by
  obtain ⟨h1, h2⟩ := hb
  have hN : 0 ≤ base.tv_usec * NSECS_IN_USEC + msec * NSECS_IN_MSEC := by
    unfold NSECS_IN_USEC NSECS_IN_MSEC; nlinarith
  constructor
  · constructor
    · rw [time_tv2ts_nsec, Int.tmod_eq_emod hN (by norm_num [NSECS_IN_SEC])]
      exact Int.emod_nonneg _ (by norm_num [NSECS_IN_SEC])
    · rw [time_tv2ts_nsec, Int.tmod_eq_emod hN (by norm_num [NSECS_IN_SEC])]
      exact Int.emod_lt_of_pos _ (by norm_num [NSECS_IN_SEC])
  · unfold ts_total_ns tv_total_us
    rw [time_tv2ts_sec, time_tv2ts_nsec,
        Int.tdiv_eq_ediv hN (by norm_num [NSECS_IN_SEC]),
        Int.tmod_eq_emod hN (by norm_num [NSECS_IN_SEC])]
    unfold NSECS_IN_SEC NSECS_IN_USEC NSECS_IN_MSEC USECS_IN_SEC at *
    omega

/-- `time_add_ts` of a normalized timespec and a non-negative offset yields a
normalized timespec denoting `ts + msec`. -/
theorem time_add_ts_spec {ts : Timespec} {msec : Int}
    (hb : ts_normalized ts) (hm : 0 ≤ msec) :
    ts_normalized (time_add_ts ts msec) ∧
      ts_total_ns (time_add_ts ts msec) = ts_total_ns ts + msec * NSECS_IN_MSEC := by
  obtain ⟨h1, h2⟩ := hb
  have hN : 0 ≤ ts.tv_nsec + msec * NSECS_IN_MSEC := by
    unfold NSECS_IN_MSEC; nlinarith
  constructor
  · constructor
    · rw [time_add_ts_nsec, Int.tmod_eq_emod hN (by norm_num [NSECS_IN_SEC])]
      exact Int.emod_nonneg _ (by norm_num [NSECS_IN_SEC])
    · rw [time_add_ts_nsec, Int.tmod_eq_emod hN (by norm_num [NSECS_IN_SEC])]
      exact Int.emod_lt_of_pos _ (by norm_num [NSECS_IN_SEC])
  · unfold ts_total_ns
    rw [time_add_ts_sec, time_add_ts_nsec,
        Int.tdiv_eq_ediv hN (by norm_num [NSECS_IN_SEC]),
        Int.tmod_eq_emod hN (by norm_num [NSECS_IN_SEC])]
    unfold NSECS_IN_SEC NSECS_IN_MSEC at *
    omega

/-- Two normalized timespecs are equal iff they denote the same total
nanosecond value. -/
theorem ts_eq_iff_total {a b : Timespec} (ha : ts_normalized a) (hb : ts_normalized b) :
    a = b ↔ ts_total_ns a = ts_total_ns b := by
  obtain ⟨ha1, ha2⟩ := ha
  obtain ⟨hb1, hb2⟩ := hb
  rcases a with ⟨s1, n1⟩
  rcases b with ⟨s2, n2⟩
  simp only [Timespec.mk.injEq, ts_total_ns] at *
  unfold NSECS_IN_SEC at *
  constructor
  · rintro ⟨rfl, rfl⟩; rfl
  · intro h; omega

/-! ## Helper lemmas: the `compute_timeout` fold -/

theorem foldl_min_le (ds : List Int) (x : Int) : ds.foldl min x ≤ x := by
  induction ds generalizing x with
  | nil => exact le_refl x
  | cons d ds ih => exact le_trans (ih (min x d)) (min_le_left x d)

theorem max_zero_foldl_min_max_zero (m : Int) (ds : List Int) :
    max 0 (List.foldl min (max 0 m) ds) = max 0 (List.foldl min m ds) := by
  induction ds generalizing m with
  | nil =>
    simp only [List.foldl_nil]
    rcases le_or_lt 0 m with h | h
    · rw [max_eq_right h]
      exact max_eq_right h
    · rw [max_eq_left h.le]
      exact max_self 0
  | cons e ds ih =>
    simp only [List.foldl_cons]
    rcases le_or_lt 0 m with h | h
    · rw [max_eq_right h]
    · rw [max_eq_left h.le]
      have hl : List.foldl min (min (0 : Int) e) ds ≤ 0 :=
        le_trans (foldl_min_le ds _) (min_le_left 0 e)
      have hr : List.foldl min (min m e) ds ≤ 0 :=
        le_trans (foldl_min_le ds _) (le_trans (min_le_left m e) h.le)
      rw [max_eq_left hl, max_eq_left hr]

theorem compute_timeout_step_eq (now : Timespec) (acc : Int) (k : Key) (h : 0 ≤ acc) :
    compute_timeout_step now acc k =
      if k.has_wakeup then max 0 (min acc (time_diff_ts k.ts_wakeup now)) else acc := by
  unfold compute_timeout_step
  by_cases hw : k.has_wakeup
  · rw [if_pos hw, if_pos hw]
    have hne : ¬ (acc = -1) := by omega
    rcases lt_or_le (time_diff_ts k.ts_wakeup now) 0 with hd | hd
    · rw [if_pos hd, max_eq_left (le_trans (min_le_right _ _) hd.le)]
    · rw [if_neg (by omega)]
      rcases lt_or_le (time_diff_ts k.ts_wakeup now) acc with hlt | hle
      · rw [if_pos (Or.inr hlt), min_eq_right hlt.le, max_eq_right hd]
      · rw [if_neg (by push_neg; exact ⟨hne, hle⟩), min_eq_left hle, max_eq_right h]
  · rw [if_neg hw, if_neg hw]

theorem compute_timeout_foldl (now : Timespec) (keys : List Key) (acc : Int)
    (h : 0 ≤ acc) :
    List.foldl (compute_timeout_step now) acc keys =
      max 0 (List.foldl min acc (pending_diffs keys now)) := by
  induction keys generalizing acc with
  | nil => simp [pending_diffs, max_eq_right h]
  | cons k ks ih =>
    by_cases hw : k.has_wakeup
    · have hp : pending_diffs (k :: ks) now =
          time_diff_ts k.ts_wakeup now :: pending_diffs ks now := by
        simp [pending_diffs, hw]
      rw [List.foldl_cons, compute_timeout_step_eq now acc k h, if_pos hw,
          ih _ (le_max_left 0 _), hp, List.foldl_cons]
      exact max_zero_foldl_min_max_zero _ _
    · have hp : pending_diffs (k :: ks) now = pending_diffs ks now := by
        simp [pending_diffs, hw]
      rw [List.foldl_cons, compute_timeout_step_eq now acc k h, if_neg hw,
          ih _ h, hp]

/-- **C3**: `compute_timeout` returns, over exactly the keys with
`has_wakeup` set, the smallest `deadline - now` in milliseconds, clamped to
`0` when a deadline has already passed, and the sentinel `-1` when no key
has a pending wakeup — i.e. it coincides with the spec-side
`computeWaitSpec`, which is `max 0 (min di)` over the pending diffs and
`-1` on an empty pending set. -/
theorem compute_timeout_eq_spec (keys : List Key) (now : Timespec) :
    compute_timeout keys now = computeWaitSpec keys now := by
  unfold compute_timeout computeWaitSpec
  induction keys with
  | nil => simp [pending_diffs]
  | cons k ks ih =>
    by_cases hw : k.has_wakeup
    · have hp : pending_diffs (k :: ks) now =
          time_diff_ts k.ts_wakeup now :: pending_diffs ks now := by
        simp [pending_diffs, hw]
      have hstep : compute_timeout_step now (-1) k =
          max 0 (time_diff_ts k.ts_wakeup now) := by
        unfold compute_timeout_step
        rw [if_pos hw]
        rcases lt_or_le (time_diff_ts k.ts_wakeup now) 0 with hd | hd
        · rw [if_pos hd, max_eq_left hd.le]
        · rw [if_neg (by omega), if_pos (Or.inl rfl), max_eq_right hd]
      rw [List.foldl_cons, hstep, hp,
          compute_timeout_foldl now ks _ (le_max_left 0 _)]
      exact max_zero_foldl_min_max_zero _ _
    · have hp : pending_diffs (k :: ks) now = pending_diffs ks now := by
        simp [pending_diffs, hw]
      have hstep : compute_timeout_step now (-1) k = -1 := by
        unfold compute_timeout_step; rw [if_neg hw]
      rw [List.foldl_cons, hstep, hp]
      exact ih

/-- **C6**: for normalized timestamps, `time_diff_ts` and `time_diff_tv`
return the signed difference in whole milliseconds (exact up to the
sub-millisecond remainder, with correct borrow/carry across the seconds
boundary), the result fits comfortably in 64-bit signed range for realistic
uptimes, and `time_tv2ts` produces a normalized timespec denoting
`base + msec` whose millisecond distance from the converted base is exactly
`msec`. -/
theorem time_arithmetic_ok (ts1 ts2 : Timespec) (tv1 tv2 : Timeval) (base : Timeval)
    (msec : Int) (hts1 : ts_normalized ts1) (hts2 : ts_normalized ts2)
    (_htv1 : tv_normalized tv1) (_htv2 : tv_normalized tv2)
    (hbase : tv_normalized base) (hm : 0 ≤ msec) :
    |time_diff_ts ts1 ts2 * NSECS_IN_MSEC - (ts_total_ns ts1 - ts_total_ns ts2)| <
        NSECS_IN_MSEC
    ∧ |time_diff_tv tv1 tv2 * USECS_IN_MSEC - (tv_total_us tv1 - tv_total_us tv2)| <
        USECS_IN_MSEC
    ∧ (|ts1.tv_sec| ≤ 2 ^ 41 → |ts2.tv_sec| ≤ 2 ^ 41 → |time_diff_ts ts1 ts2| < 2 ^ 63)
    ∧ ts_normalized (time_tv2ts base msec)
    ∧ ts_total_ns (time_tv2ts base msec) = tv_total_us base * 1000 + msec * NSECS_IN_MSEC
    ∧ time_diff_ts (time_tv2ts base msec) (time_tv2ts base 0) = msec := by
  obtain ⟨hmk, hmt⟩ := time_tv2ts_spec hbase hm
  obtain ⟨hzk, hzt⟩ := time_tv2ts_spec hbase (le_refl 0)
  refine ⟨time_diff_ts_close ts1 ts2, time_diff_tv_close tv1 tv2, ?_, hmk, hmt, ?_⟩
  · intro hs1 hs2
    have hb := tdiv_sub_bound (d := ts1.tv_nsec - ts2.tv_nsec)
      (m := NSECS_IN_MSEC) (by norm_num [NSECS_IN_MSEC])
    obtain ⟨h1, h2⟩ := hts1
    obtain ⟨h3, h4⟩ := hts2
    rw [abs_le] at hs1 hs2
    rw [abs_lt] at hb ⊢
    unfold time_diff_ts NSECS_IN_MSEC NSECS_IN_SEC at *
    omega
  · have hdvd : NSECS_IN_MSEC ∣
        ((time_tv2ts base msec).tv_nsec - (time_tv2ts base 0).tv_nsec) := by
      refine ⟨msec - ((time_tv2ts base msec).tv_sec - (time_tv2ts base 0).tv_sec) * 1000, ?_⟩
      unfold ts_total_ns tv_total_us NSECS_IN_SEC NSECS_IN_MSEC at hmt hzt
      unfold NSECS_IN_MSEC
      omega
    have hx := time_diff_ts_exact hdvd
    rw [hmt, hzt] at hx
    unfold NSECS_IN_MSEC at hx
    omega

/-- Witness for the C6 theorem at concrete inputs. -/
theorem time_arithmetic_ok_witness :
    ts_normalized (Timespec.mk 5 1500000) ∧ ts_normalized (Timespec.mk 2 999999999) ∧
    tv_normalized (Timeval.mk 1 5000) ∧ tv_normalized (Timeval.mk 0 999999) ∧
    tv_normalized (Timeval.mk 3 999999) ∧ (0 : Int) ≤ 2500 ∧
    (|time_diff_ts (Timespec.mk 5 1500000) (Timespec.mk 2 999999999) * NSECS_IN_MSEC -
        (ts_total_ns (Timespec.mk 5 1500000) - ts_total_ns (Timespec.mk 2 999999999))| <
          NSECS_IN_MSEC
      ∧ |time_diff_tv (Timeval.mk 1 5000) (Timeval.mk 0 999999) * USECS_IN_MSEC -
          (tv_total_us (Timeval.mk 1 5000) - tv_total_us (Timeval.mk 0 999999))| <
            USECS_IN_MSEC
      ∧ (|(Timespec.mk 5 1500000).tv_sec| ≤ 2 ^ 41 → |(Timespec.mk 2 999999999).tv_sec| ≤ 2 ^ 41 →
          |time_diff_ts (Timespec.mk 5 1500000) (Timespec.mk 2 999999999)| < 2 ^ 63)
      ∧ ts_normalized (time_tv2ts (Timeval.mk 3 999999) 2500)
      ∧ ts_total_ns (time_tv2ts (Timeval.mk 3 999999) 2500) =
          tv_total_us (Timeval.mk 3 999999) * 1000 + 2500 * NSECS_IN_MSEC
      ∧ time_diff_ts (time_tv2ts (Timeval.mk 3 999999) 2500)
          (time_tv2ts (Timeval.mk 3 999999) 0) = 2500) :=
  ⟨by decide, by decide, by decide, by decide, by decide, by decide,
   time_arithmetic_ok (Timespec.mk 5 1500000) (Timespec.mk 2 999999999)
     (Timeval.mk 1 5000) (Timeval.mk 0 999999) (Timeval.mk 3 999999) 2500
     (by decide) (by decide) (by decide) (by decide) (by decide) (by decide)⟩

/-! ## Helper lemmas: the action matcher on sorted lists -/

theorem find_from_end_eq_reverse_find (t : Int) (l : List Action) :
    find_from_end t l = l.reverse.find? (fun a => action_match a t) := by
  induction l with
  | nil => rfl
  | cons a l ih =>
    simp only [find_from_end, List.reverse_cons, List.find?_append, ih]
    cases h : List.find? (fun a => action_match a t) l.reverse with
    | none =>
      simp only [Option.orElse, List.find?]
      cases hma : action_match a t <;> simp [hma]
    | some b => simp [Option.orElse]

theorem find_from_end_none {t : Int} :
    ∀ {l : List Action}, (∀ c ∈ l, action_match c t = false) →
      find_from_end t l = none := by
  intro l
  induction l with
  | nil => intro _; rfl
  | cons a rest ih =>
    intro h
    unfold find_from_end
    rw [ih (fun c hc => h c (List.mem_cons_of_mem a hc))]
    simp [h a (List.mem_cons_self a rest)]

theorem longs_nondecr_tail {a : Action} {s : List Action}
    (h : longs_nondecr (a :: s) = true) : longs_nondecr s = true := by
  cases s with
  | nil => rfl
  | cons b s =>
    unfold longs_nondecr at h
    rw [Bool.and_eq_true] at h
    exact h.2

theorem longs_nondecr_head_le :
    ∀ (a : Action) (s : List Action), longs_nondecr (a :: s) = true →
      ∀ c ∈ s, a.trigger_time ≤ c.trigger_time := by
  intro a s
  induction s generalizing a with
  | nil => intro _ c hc; cases hc
  | cons b s ih =>
    intro h c hc
    unfold longs_nondecr at h
    rw [Bool.and_eq_true, decide_eq_true_eq] at h
    obtain ⟨hab, hbs⟩ := h
    rcases List.mem_cons.mp hc with rfl | hc'
    · exact hab
    · exact le_trans hab (ih b hbs c hc')

theorem actions_sorted_all_long {x : Action} {rest : List Action}
    (h : actions_sorted (x :: rest) = true) :
    ∀ c ∈ rest, c.type = ActionType.LONG_PRESS := by
  unfold actions_sorted short_only_first at h
  rw [Bool.and_eq_true] at h
  have h1 := h.1
  simp only [List.tail_cons] at h1
  intro c hc
  exact of_decide_eq_true ((List.all_eq_true.mp h1) c hc)

theorem actions_sorted_tail {x : Action} {rest : List Action}
    (h : actions_sorted (x :: rest) = true) : actions_sorted rest = true := by
  have hall := actions_sorted_all_long h
  unfold actions_sorted short_only_first at h ⊢
  rw [Bool.and_eq_true] at h
  obtain ⟨h1, h2⟩ := h
  rw [Bool.and_eq_true]
  constructor
  · simp only [List.tail_cons] at h1
    rw [List.all_eq_true] at h1 ⊢
    intro c hc
    exact h1 c (List.mem_of_mem_tail hc)
  · rw [List.filter_cons] at h2
    by_cases hx : x.type = ActionType.LONG_PRESS
    · rw [if_pos (decide_eq_true hx)] at h2
      exact longs_nondecr_tail h2
    · rw [if_neg (by simp [hx])] at h2
      exact h2

theorem sorted_head_long_le {x : Action} {rest : List Action}
    (hs : actions_sorted (x :: rest) = true)
    (hx : x.type = ActionType.LONG_PRESS) :
    ∀ c ∈ rest, x.trigger_time ≤ c.trigger_time := by
  have hall := actions_sorted_all_long hs
  unfold actions_sorted at hs
  rw [Bool.and_eq_true] at hs
  have h2 := hs.2
  have hfil : (x :: rest).filter (fun a => decide (a.type = ActionType.LONG_PRESS)) =
      x :: rest := by
    apply List.filter_eq_self.mpr
    intro c hc
    rcases List.mem_cons.mp hc with rfl | hc'
    · exact decide_eq_true hx
    · exact decide_eq_true (hall c hc')
  rw [hfil] at h2
  exact longs_nondecr_head_le x rest h2

theorem find_from_end_longest :
    ∀ (l : List Action) (t : Int), actions_sorted l = true →
      (∃ a ∈ l, a.type = ActionType.LONG_PRESS ∧ a.trigger_time ≤ t) →
      ∃ b, b ∈ l ∧ find_from_end t l = some b ∧ b.type = ActionType.LONG_PRESS ∧
        b.trigger_time ≤ t ∧
        ∀ c ∈ l, c.type = ActionType.LONG_PRESS → c.trigger_time ≤ t →
          c.trigger_time ≤ b.trigger_time := by
  intro l
  induction l with
  | nil =>
    intro t _ hex
    obtain ⟨a, ha, _⟩ := hex
    cases ha
  | cons x rest ih =>
    intro t hs hex
    by_cases hr : ∃ a ∈ rest, a.type = ActionType.LONG_PRESS ∧ a.trigger_time ≤ t
    · obtain ⟨b, hbm, hb1, hb2, hb3, hb4⟩ := ih t (actions_sorted_tail hs) hr
      refine ⟨b, List.mem_cons_of_mem x hbm, ?_, hb2, hb3, ?_⟩
      · unfold find_from_end
        rw [hb1]
      · intro c hc hcl hct
        rcases List.mem_cons.mp hc with rfl | hc'
        · exact sorted_head_long_le hs hcl b hbm
        · exact hb4 c hc' hcl hct
    · obtain ⟨a, ha, hal, hat⟩ := hex
      have hax : a = x := by
        rcases List.mem_cons.mp ha with h | h
        · exact h
        · exact absurd ⟨a, h, hal, hat⟩ hr
      subst hax
      have hall := actions_sorted_all_long hs
      have hnone : find_from_end t rest = none := by
        apply find_from_end_none
        intro c hc
        have hcl := hall c hc
        have hct : ¬ c.trigger_time ≤ t := fun hle => hr ⟨c, hc, hcl, hle⟩
        unfold action_match
        rw [hcl]
        exact decide_eq_false (by omega)
      refine ⟨a, List.mem_cons_self a rest, ?_, hal, hat, ?_⟩
      · unfold find_from_end
        rw [hnone]
        have : action_match a t = true := by
          unfold action_match
          rw [hal]
          exact decide_eq_true (by omega)
        rw [this]
        rfl
      · intro c hc hcl hct
        rcases List.mem_cons.mp hc with rfl | hc'
        · exact le_refl _
        · exact absurd ⟨c, hc', hcl, hct⟩ hr

/-- **C1**: for every key and every elapsed hold duration, `find_key_action`
is the reverse scan of the action list under the `action_match` criteria
(`Long` matches iff `elapsed ≥ triggerTimeMs`, `Short` iff
`elapsed < triggerTimeMs`) — stated unconditionally; moreover, whenever the
action list is sorted and some long tier's threshold has been reached, the
longest reached tier wins; and on the default Short@1000/Long@5000
configuration an elapsed of 999 selects the short action, 1000 selects
nothing, and 5000 selects the long action. -/
theorem find_key_action_spec (k : Key) (t : Int) :
    find_key_action k t = k.actions.reverse.find? (fun x => action_match x t)
    ∧ (actions_sorted k.actions = true →
        ∀ a ∈ k.actions, a.type = ActionType.LONG_PRESS → a.trigger_time ≤ t →
          ∃ b, b ∈ k.actions ∧ find_key_action k t = some b ∧
            b.type = ActionType.LONG_PRESS ∧ b.trigger_time ≤ t ∧
            ∀ c ∈ k.actions, c.type = ActionType.LONG_PRESS → c.trigger_time ≤ t →
              c.trigger_time ≤ b.trigger_time)
    ∧ find_key_action defaultsKey 999 = some defaultShort
    ∧ find_key_action defaultsKey 1000 = none
    ∧ find_key_action defaultsKey 5000 = some defaultLong := by
  refine ⟨find_from_end_eq_reverse_find t k.actions, ?_, by decide, by decide, by decide⟩
  intro hsorted a ha hlong hat
  exact find_from_end_longest k.actions t hsorted ⟨a, ha, hlong, hat⟩

/-- Witness for the C1 theorem: the two-tier key (Long@5000, Long@10000)
held for 12000 ms scans in reverse and selects the 10000 ms tier. -/
theorem find_key_action_spec_witness :
    find_key_action tieredKey 12000 =
        tieredKey.actions.reverse.find? (fun x => action_match x 12000)
    ∧ actions_sorted tieredKey.actions = true
    ∧ (Action.mk ActionType.LONG_PRESS 5000 "l5") ∈ tieredKey.actions
    ∧ (Action.mk ActionType.LONG_PRESS 5000 "l5").type = ActionType.LONG_PRESS
    ∧ (Action.mk ActionType.LONG_PRESS 5000 "l5").trigger_time ≤ 12000
    ∧ (∃ b, b ∈ tieredKey.actions ∧ find_key_action tieredKey 12000 = some b ∧
        b.type = ActionType.LONG_PRESS ∧ b.trigger_time ≤ 12000 ∧
        ∀ c ∈ tieredKey.actions, c.type = ActionType.LONG_PRESS →
          c.trigger_time ≤ 12000 → c.trigger_time ≤ b.trigger_time)
    ∧ find_key_action defaultsKey 999 = some defaultShort
    ∧ find_key_action defaultsKey 1000 = none
    ∧ find_key_action defaultsKey 5000 = some defaultLong :=
  ⟨(find_key_action_spec tieredKey 12000).1, by decide, by decide, by decide, by decide,
   (find_key_action_spec tieredKey 12000).2.1 (by decide)
     (Action.mk ActionType.LONG_PRESS 5000 "l5") (by decide) (by decide) (by decide),
   (find_key_action_spec tieredKey 12000).2.2.1,
   (find_key_action_spec tieredKey 12000).2.2.2.1,
   (find_key_action_spec tieredKey 12000).2.2.2.2⟩

/-- **C2**: for a key with only a short-press action, press at 0 ms, release
at 5 ms, press at 8 ms (inside the 10 ms debounce window, which cancels the
pending debounce wakeup since the last action is not Long), release at
50 ms: exactly one action-matcher evaluation happens, with elapsed measured
from the first press to the final release (50 ms), matching the short
action; after the release at 5 ms the key sits in Debounce with a pending
wakeup, and the press at 8 ms returns it to Pressed with `tv_pressed` still
the first press time and the wakeup cancelled. -/
theorem debounce_coalescing :
    (run_trace shortOnlyKey debounceTrace).2 = [(50, some defaultShort)]
    ∧ (run_trace shortOnlyKey (debounceTrace.take 4)).1.state = KeyState.KEY_DEBOUNCE
    ∧ (run_trace shortOnlyKey (debounceTrace.take 4)).1.has_wakeup = true
    ∧ (run_trace shortOnlyKey (debounceTrace.take 5)).1 =
        { code := 148, has_wakeup := false, actions := [defaultShort]
          tv_pressed := ⟨0, 0⟩, tv_released := ⟨0, 5000⟩, ts_wakeup := ⟨0, 15000000⟩
          state := KeyState.KEY_PRESSED }
    ∧ (run_trace shortOnlyKey debounceTrace).1.state = KeyState.KEY_RELEASED
    ∧ (run_trace shortOnlyKey debounceTrace).1.has_wakeup = false := by
  refine ⟨by decide, by decide, by decide, by decide, by decide, by decide⟩

/-! ## Helper lemmas: expired wakeups and the Handled state -/

theorem handle_timeout_key_fires {k : Key} {now : Timespec}
    (hw : k.has_wakeup = true) (hd : time_diff_ts k.ts_wakeup now ≤ 0)
    (hs : k.state ≠ KeyState.KEY_DEBOUNCE) :
    handle_timeout_key now k =
      ({ k with tv_released := time_ts2tv now 0, has_wakeup := false
                state := KeyState.KEY_HANDLED },
       [(time_diff_tv (time_ts2tv now 0) k.tv_pressed,
         find_from_end (time_diff_tv (time_ts2tv now 0) k.tv_pressed) k.actions)]) := by
  unfold handle_timeout_key
  rw [if_pos (And.intro hw hd), if_pos hs]
  simp [find_key_action, hs]

theorem handle_timeout_key_no_wakeup {k : Key} {now : Timespec}
    (h : k.has_wakeup = false) : handle_timeout_key now k = (k, []) := by
  unfold handle_timeout_key
  rw [if_neg]
  intro hc
  rw [h] at hc
  exact Bool.false_ne_true hc.1

theorem handle_key_handled_press {k : Key} {ev : InputEvent} {now : Timespec}
    (hs : k.state = KeyState.KEY_HANDLED) (hv : ev.value ≠ 0) :
    handle_key ev now k = k := by
  unfold handle_key
  rw [hs]
  simp [hv]

theorem handle_key_handled_release {k : Key} {ev : InputEvent} {now : Timespec}
    (hs : k.state = KeyState.KEY_HANDLED) (hv : ev.value = 0) :
    handle_key ev now k = { k with state := KeyState.KEY_RELEASED } := by
  unfold handle_key
  rw [hs]
  simp [hv]

theorem run_trace_handled {k : Key} (hs : k.state = KeyState.KEY_HANDLED)
    (hw : k.has_wakeup = false) :
    ∀ steps : List LoopStep, steps.all press_or_timeout = true →
      run_trace k steps = (k, []) := by
  intro steps
  induction steps with
  | nil => intro _; rfl
  | cons s rest ih =>
    intro hall
    rw [List.all_cons, Bool.and_eq_true] at hall
    obtain ⟨h1, h2⟩ := hall
    cases s with
    | input ev now =>
      have hv : ev.value ≠ 0 := by
        unfold press_or_timeout at h1
        exact of_decide_eq_true h1
      simp only [run_trace, run_step]
      rw [handle_key_handled_press hs hv, ih h2]
      simp
    | timeouts now =>
      simp only [run_trace, run_step]
      rw [handle_timeout_key_no_wakeup hw, ih h2]
      simp

/-- **C4**: when a key still physically held (state ≠ Debounce, here
Pressed) reaches its wakeup deadline, `handle_timeouts` synthesizes the
release time `now`, evaluates the matcher exactly once on
`now - tv_pressed`, clears `has_wakeup` and moves the key to Handled; from
Handled every press is a strict no-op and further `handle_timeouts` passes
fire nothing, until a release event returns the key to Released. -/
theorem long_press_fires_once (k : Key) (now : Timespec)
    (hw : k.has_wakeup = true) (hd : time_diff_ts k.ts_wakeup now ≤ 0)
    (hs : k.state = KeyState.KEY_PRESSED) :
    (handle_timeout_key now k).1.state = KeyState.KEY_HANDLED
    ∧ (handle_timeout_key now k).1.has_wakeup = false
    ∧ (handle_timeout_key now k).1.tv_released = time_ts2tv now 0
    ∧ (handle_timeout_key now k).2 =
        [(time_diff_tv (time_ts2tv now 0) k.tv_pressed,
          find_from_end (time_diff_tv (time_ts2tv now 0) k.tv_pressed) k.actions)]
    ∧ (∀ steps : List LoopStep, steps.all press_or_timeout = true →
        run_trace (handle_timeout_key now k).1 steps = ((handle_timeout_key now k).1, []))
    ∧ (∀ (ev : InputEvent) (now2 : Timespec), ev.value = 0 →
        handle_key ev now2 (handle_timeout_key now k).1 =
          { (handle_timeout_key now k).1 with state := KeyState.KEY_RELEASED }) := by
  have hne : k.state ≠ KeyState.KEY_DEBOUNCE := by
    rw [hs]
    intro h
    cases h
  have hk := handle_timeout_key_fires hw hd hne
  rw [hk]
  refine ⟨rfl, rfl, rfl, rfl, ?_, ?_⟩
  · exact run_trace_handled rfl rfl
  · intro ev now2 hv
    exact handle_key_handled_release rfl hv

/-- A key holding the default long action, pressed at time 0 with its wakeup
armed at the 5000 ms deadline. -/
def heldLongKey : Key :=
  { code := 148, has_wakeup := true, actions := [defaultLong]
    tv_pressed := ⟨0, 0⟩, tv_released := ⟨0, 0⟩, ts_wakeup := ⟨5, 0⟩
    state := KeyState.KEY_PRESSED }

/-- Witness for the C4 theorem: `heldLongKey` at `now = 5 s`, followed by two
presses, a timeouts pass, and then a release. -/
theorem long_press_fires_once_witness :
    heldLongKey.has_wakeup = true
    ∧ time_diff_ts heldLongKey.ts_wakeup (Timespec.mk 5 0) ≤ 0
    ∧ heldLongKey.state = KeyState.KEY_PRESSED
    ∧ (handle_timeout_key (Timespec.mk 5 0) heldLongKey).1.state = KeyState.KEY_HANDLED
    ∧ (handle_timeout_key (Timespec.mk 5 0) heldLongKey).1.has_wakeup = false
    ∧ (handle_timeout_key (Timespec.mk 5 0) heldLongKey).1.tv_released =
        time_ts2tv (Timespec.mk 5 0) 0
    ∧ (handle_timeout_key (Timespec.mk 5 0) heldLongKey).2 =
        [(time_diff_tv (time_ts2tv (Timespec.mk 5 0) 0) heldLongKey.tv_pressed,
          find_from_end
            (time_diff_tv (time_ts2tv (Timespec.mk 5 0) 0) heldLongKey.tv_pressed)
            heldLongKey.actions)]
    ∧ run_trace (handle_timeout_key (Timespec.mk 5 0) heldLongKey).1
        [LoopStep.input (ev148 5100 1) (ms_ts 5100),
         LoopStep.timeouts (ms_ts 5200),
         LoopStep.input (ev148 5300 1) (ms_ts 5300)] =
        ((handle_timeout_key (Timespec.mk 5 0) heldLongKey).1, [])
    ∧ handle_key (ev148 6000 0) (ms_ts 6000)
        (handle_timeout_key (Timespec.mk 5 0) heldLongKey).1 =
        { (handle_timeout_key (Timespec.mk 5 0) heldLongKey).1 with
            state := KeyState.KEY_RELEASED } := by
  have h := long_press_fires_once heldLongKey (Timespec.mk 5 0)
    (by decide) (by decide) (by decide)
  exact ⟨by decide, by decide, by decide, h.1, h.2.1, h.2.2.1, h.2.2.2.1,
    h.2.2.2.2.1 _ (by decide), h.2.2.2.2.2 _ _ (by decide)⟩

/-! ## Helper lemmas: the `handle_key` transitions -/

theorem handle_key_release {k : Key} {ev : InputEvent} {now : Timespec}
    (hs : k.state = KeyState.KEY_PRESSED) (hv : ev.value = 0) :
    handle_key ev now k =
      { k with state := KeyState.KEY_DEBOUNCE, tv_released := ev.time
               has_wakeup := true, ts_wakeup := time_add_ts now DEBOUNCE_MSECS } := by
  unfold handle_key
  rw [hs]
  simp [hv]

theorem handle_key_v0_release {k : Key} {ev : InputEvent}
    (hs : k.state = KeyState.KEY_PRESSED) (hv : ev.value = 0) :
    handle_key_v0 ev k =
      { k with state := KeyState.KEY_DEBOUNCE, tv_released := ev.time
               has_wakeup := true
               ts_wakeup := time_tv2ts k.tv_pressed DEBOUNCE_MSECS } := by
  unfold handle_key_v0
  rw [hs]
  simp [hv]

theorem handle_key_ignore_release {k : Key} {ev : InputEvent} {now : Timespec}
    (hs : k.state = KeyState.KEY_RELEASED ∨ k.state = KeyState.KEY_DEBOUNCE)
    (hv : ev.value = 0) : handle_key ev now k = k := by
  unfold handle_key
  rcases hs with hs | hs <;> rw [hs] <;> simp [hv]

theorem handle_key_ignore_repress {k : Key} {ev : InputEvent} {now : Timespec}
    (hs : k.state = KeyState.KEY_PRESSED) (hv : ev.value ≠ 0) :
    handle_key ev now k = k := by
  unfold handle_key
  rw [hs]
  simp [hv]

theorem handle_key_press_state {k : Key} {ev : InputEvent} {now : Timespec}
    (hs : k.state = KeyState.KEY_RELEASED ∨ k.state = KeyState.KEY_DEBOUNCE)
    (hv : ev.value ≠ 0) : (handle_key ev now k).state = KeyState.KEY_PRESSED := by
  unfold handle_key
  rcases hs with hs | hs <;> rw [hs] <;> simp only [if_neg hv] <;>
    cases hgl : ({ k with tv_pressed := ev.time } : Key).actions.getLast? <;>
    cases hgl2 : k.actions.getLast? <;>
    simp_all <;> split <;> simp

/-- The debounce-deadline comparison: the newer revision's `now + 10 ms`
deadline equals the older revision's `tv_pressed + 10 ms` deadline exactly
when `now` is the (converted) press instant. -/
theorem add_now_eq_tv2ts_iff {now : Timespec} {pressed : Timeval}
    (hn : ts_normalized now) (hp : tv_normalized pressed) :
    time_add_ts now DEBOUNCE_MSECS = time_tv2ts pressed DEBOUNCE_MSECS ↔
      now = time_tv2ts pressed 0 := by
  have hd : (0 : Int) ≤ DEBOUNCE_MSECS := by norm_num [DEBOUNCE_MSECS]
  obtain ⟨h1k, h1t⟩ := time_add_ts_spec hn hd
  obtain ⟨h2k, h2t⟩ := time_tv2ts_spec hp hd
  obtain ⟨h3k, h3t⟩ := time_tv2ts_spec hp (le_refl 0)
  rw [ts_eq_iff_total h1k h2k, ts_eq_iff_total hn h3k, h1t, h2t, h3t]
  constructor <;> intro h <;> omega

/-- A key in the Pressed state whose press was recorded at time 0. -/
def pressedAtZeroKey : Key :=
  { code := 148, has_wakeup := false, actions := [defaultShort]
    tv_pressed := ⟨0, 0⟩, tv_released := ⟨0, 0⟩, ts_wakeup := ⟨0, 0⟩
    state := KeyState.KEY_PRESSED }

/-- Counterexample to C5 as stated: on a release at 500 ms of a key pressed
at time 0, the two revisions compute different debounce deadlines (the newer
arms `now + 10 ms` = 510 ms, the older `tv_pressed + 10 ms` = 10 ms), so
their release transitions are not extensionally equal in the wakeup
deadline. -/
theorem release_deadline_differs :
    (handle_key (ev148 500 0) (ms_ts 500) pressedAtZeroKey).ts_wakeup ≠
      (handle_key_v0 (ev148 500 0) pressedAtZeroKey).ts_wakeup := by decide

/-- **C5 (amended)**: on a release event in the Pressed state both revisions
enter Debounce, record `releasedAt = event time` and set `has_wakeup`; the
newer revision arms the deadline at `now + DEBOUNCE_MSECS` while the older
arms it at `tv_pressed + DEBOUNCE_MSECS`, and (for normalized timestamps)
the two deadlines coincide exactly when `now` equals the converted press
instant — the transitions are not extensionally equal in general. -/
theorem release_transitions (k : Key) (ev : InputEvent) (now : Timespec)
    (hs : k.state = KeyState.KEY_PRESSED) (hv : ev.value = 0)
    (hn : ts_normalized now) (hp : tv_normalized k.tv_pressed) :
    handle_key ev now k =
      { k with state := KeyState.KEY_DEBOUNCE, tv_released := ev.time
               has_wakeup := true, ts_wakeup := time_add_ts now DEBOUNCE_MSECS }
    ∧ handle_key_v0 ev k =
      { k with state := KeyState.KEY_DEBOUNCE, tv_released := ev.time
               has_wakeup := true
               ts_wakeup := time_tv2ts k.tv_pressed DEBOUNCE_MSECS }
    ∧ ((handle_key ev now k).ts_wakeup = (handle_key_v0 ev k).ts_wakeup ↔
        now = time_tv2ts k.tv_pressed 0) := by
  have h1 := @handle_key_release k ev now hs hv
  have h2 := handle_key_v0_release hs hv
  refine ⟨h1, h2, ?_⟩
  rw [h1, h2]
  simp only
  exact add_now_eq_tv2ts_iff hn hp

/-- Witness for the amended C5 theorem: release at 400 µs of a key pressed
at 300 µs, processed at exactly the press instant, where the two deadlines
do coincide. -/
theorem release_transitions_witness :
    ({ pressedAtZeroKey with tv_pressed := ⟨0, 300⟩ } : Key).state =
        KeyState.KEY_PRESSED
    ∧ (InputEvent.mk ⟨0, 400⟩ 1 148 0).value = 0
    ∧ ts_normalized (Timespec.mk 0 300000)
    ∧ tv_normalized ({ pressedAtZeroKey with tv_pressed := ⟨0, 300⟩ } : Key).tv_pressed
    ∧ (handle_key (InputEvent.mk ⟨0, 400⟩ 1 148 0) (Timespec.mk 0 300000)
          { pressedAtZeroKey with tv_pressed := ⟨0, 300⟩ } =
        { ({ pressedAtZeroKey with tv_pressed := ⟨0, 300⟩ } : Key) with
            state := KeyState.KEY_DEBOUNCE, tv_released := ⟨0, 400⟩
            has_wakeup := true
            ts_wakeup := time_add_ts (Timespec.mk 0 300000) DEBOUNCE_MSECS }
      ∧ handle_key_v0 (InputEvent.mk ⟨0, 400⟩ 1 148 0)
          { pressedAtZeroKey with tv_pressed := ⟨0, 300⟩ } =
        { ({ pressedAtZeroKey with tv_pressed := ⟨0, 300⟩ } : Key) with
            state := KeyState.KEY_DEBOUNCE, tv_released := ⟨0, 400⟩
            has_wakeup := true
            ts_wakeup := time_tv2ts (Timeval.mk 0 300) DEBOUNCE_MSECS }
      ∧ ((handle_key (InputEvent.mk ⟨0, 400⟩ 1 148 0) (Timespec.mk 0 300000)
            { pressedAtZeroKey with tv_pressed := ⟨0, 300⟩ }).ts_wakeup =
          (handle_key_v0 (InputEvent.mk ⟨0, 400⟩ 1 148 0)
            { pressedAtZeroKey with tv_pressed := ⟨0, 300⟩ }).ts_wakeup ↔
          Timespec.mk 0 300000 = time_tv2ts (Timeval.mk 0 300) 0)) :=
  ⟨by decide, by decide, by decide, by decide,
   release_transitions { pressedAtZeroKey with tv_pressed := ⟨0, 300⟩ }
     (InputEvent.mk ⟨0, 400⟩ 1 148 0) (Timespec.mk 0 300000)
     (by decide) (by decide) (by decide) (by decide)⟩

/-! ## C9: events with no matching key are strict no-ops -/

theorem update_matching_key_noop {event : InputEvent} {now : Timespec} :
    ∀ {keys : List Key}, (∀ k ∈ keys, k.code ≠ event.code) →
      update_matching_key event now keys = (keys, false) := by
  intro keys
  induction keys with
  | nil => intro _; rfl
  | cons k rest ih =>
    intro h
    unfold update_matching_key
    rw [if_neg (h k (List.mem_cons_self k rest))]
    rw [ih fun k' hk' => h k' (List.mem_cons_of_mem k hk')]

/-- **C9**: a decoded event whose type is not 1 or whose code matches no
configured key leaves the whole key table unchanged and never invokes
`handle_key` (and hence never the action matcher), at every verbosity
level. -/
theorem handle_input_event_noop (event : InputEvent) (now : Timespec) (dbg : Int)
    (keys : List Key)
    (h : event.type ≠ 1 ∨ ∀ k ∈ keys, k.code ≠ event.code) :
    handle_input_event event now dbg keys = (keys, false) := by
  unfold handle_input_event
  rcases h with h | h
  · rw [if_pos h]
  · by_cases ht : event.type ≠ 1
    · rw [if_pos ht]
    · rw [if_neg ht]
      exact update_matching_key_noop h

/-- Witness for the C9 theorem: a key event for unconfigured code 7 against
a table holding only code 148, at verbosity 4. -/
theorem handle_input_event_noop_witness :
    ((InputEvent.mk ⟨0, 0⟩ 1 7 1).type ≠ 1 ∨
      ∀ k ∈ [defaultsKey], k.code ≠ (InputEvent.mk ⟨0, 0⟩ 1 7 1).code)
    ∧ handle_input_event (InputEvent.mk ⟨0, 0⟩ 1 7 1) (ms_ts 0) 4 [defaultsKey] =
        ([defaultsKey], false) :=
  ⟨Or.inr (by decide),
   handle_input_event_noop (InputEvent.mk ⟨0, 0⟩ 1 7 1) (ms_ts 0) 4 [defaultsKey]
     (Or.inr (by decide))⟩

/-! ## C10: the wakeup-consistency invariant is preserved -/

theorem key_inv_of_pressed {k : Key} (h : k.state = KeyState.KEY_PRESSED) :
    key_inv k = true := by
  unfold key_inv
  rw [h]

theorem key_inv_handle_key (ev : InputEvent) (now : Timespec) (k : Key)
    (h : key_inv k = true) : key_inv (handle_key ev now k) = true := by
  cases hs : k.state
  case KEY_RELEASED =>
    by_cases hv : ev.value = 0
    · rw [handle_key_ignore_release (Or.inl hs) hv]
      exact h
    · exact key_inv_of_pressed (handle_key_press_state (Or.inl hs) hv)
  case KEY_DEBOUNCE =>
    by_cases hv : ev.value = 0
    · rw [handle_key_ignore_release (Or.inr hs) hv]
      exact h
    · exact key_inv_of_pressed (handle_key_press_state (Or.inr hs) hv)
  case KEY_PRESSED =>
    by_cases hv : ev.value = 0
    · rw [handle_key_release hs hv]
      unfold key_inv
      rfl
    · rw [handle_key_ignore_repress hs hv]
      exact h
  case KEY_HANDLED =>
    by_cases hv : ev.value = 0
    · rw [handle_key_handled_release hs hv]
      unfold key_inv at h ⊢
      rw [hs] at h
      exact h
    · rw [handle_key_handled_press hs hv]
      exact h

theorem key_inv_handle_timeout (now : Timespec) (k : Key)
    (h : key_inv k = true) : key_inv (handle_timeout_key now k).1 = true := by
  unfold handle_timeout_key
  by_cases hc : k.has_wakeup = true ∧ time_diff_ts k.ts_wakeup now ≤ 0
  · rw [if_pos hc]
    by_cases hd : k.state = KeyState.KEY_DEBOUNCE <;> simp [key_inv, hd]
  · rw [if_neg hc]
    exact h

theorem key_inv_run_trace (k : Key) (h : key_inv k = true) :
    ∀ steps : List LoopStep, key_inv (run_trace k steps).1 = true := by
  intro steps
  induction steps generalizing k with
  | nil => exact h
  | cons s rest ih =>
    cases s with
    | input ev now =>
      simp only [run_trace, run_step]
      exact ih _ (key_inv_handle_key ev now k h)
    | timeouts now =>
      simp only [run_trace, run_step]
      exact ih _ (key_inv_handle_timeout now k h)

/-- **C10**: from the initial state (Released, no wakeup), any interleaving
of `handle_key` events and `handle_timeouts` passes keeps the key in a state
where Debounce implies a pending wakeup and Released/Handled implies no
pending wakeup. -/
theorem key_state_machine_inv (init : Key) (h1 : init.state = KeyState.KEY_RELEASED)
    (h2 : init.has_wakeup = false) (steps : List LoopStep) :
    ((run_trace init steps).1.state = KeyState.KEY_DEBOUNCE →
      (run_trace init steps).1.has_wakeup = true)
    ∧ ((run_trace init steps).1.state = KeyState.KEY_RELEASED ∨
        (run_trace init steps).1.state = KeyState.KEY_HANDLED →
        (run_trace init steps).1.has_wakeup = false) := by
  have hinv : key_inv init = true := by
    unfold key_inv
    rw [h1, h2]
    rfl
  have hrun := key_inv_run_trace init hinv steps
  unfold key_inv at hrun
  constructor
  · intro hc
    rw [hc] at hrun
    exact hrun
  · intro hc
    rcases hc with hc | hc <;> rw [hc] at hrun <;> simpa using hrun

/-- Witness for the C10 theorem: the debounce trace from the resting
short-only key. -/
theorem key_state_machine_inv_witness :
    shortOnlyKey.state = KeyState.KEY_RELEASED
    ∧ shortOnlyKey.has_wakeup = false
    ∧ (((run_trace shortOnlyKey debounceTrace).1.state = KeyState.KEY_DEBOUNCE →
        (run_trace shortOnlyKey debounceTrace).1.has_wakeup = true)
      ∧ ((run_trace shortOnlyKey debounceTrace).1.state = KeyState.KEY_RELEASED ∨
          (run_trace shortOnlyKey debounceTrace).1.state = KeyState.KEY_HANDLED →
          (run_trace shortOnlyKey debounceTrace).1.has_wakeup = false)) :=
  ⟨by decide, by decide,
   key_state_machine_inv shortOnlyKey (by decide) (by decide) debounceTrace⟩

/-! ## C7: the sorted-actions invariant -/

instance : IsTotal Action action_le where
  total := by
    intro a b
    unfold action_le sort_actions_compare
    by_cases ha : a.type = ActionType.SHORT_PRESS
    · left
      simp [ha]
    · by_cases hb : b.type = ActionType.SHORT_PRESS
      · right
        simp [ha, hb]
      · simp only [ha, hb, if_false]
        split_ifs <;> omega

instance : IsTrans Action action_le where
  trans := by
    intro a b c hab hbc
    unfold action_le sort_actions_compare at *
    by_cases ha : a.type = ActionType.SHORT_PRESS
    · simp [ha]
    · by_cases hb : b.type = ActionType.SHORT_PRESS
      · simp [ha, hb] at hab
      · by_cases hc : c.type = ActionType.SHORT_PRESS
        · simp [hb, hc] at hbc
        · simp only [ha, hb, hc, if_false] at *
          split_ifs at * <;> omega

theorem build_actions_short_count :
    ∀ (bs : List KeyBinding) (acc res : List Action),
      build_actions bs acc = some res →
      acc.countP (fun a => decide (a.type = ActionType.SHORT_PRESS)) ≤ 1 →
      res.countP (fun a => decide (a.type = ActionType.SHORT_PRESS)) ≤ 1 := by
  intro bs
  induction bs with
  | nil =>
    intro acc res h hc
    unfold build_actions at h
    injection h with h
    subst h
    exact hc
  | cons b bs ih =>
    intro acc res h hc
    unfold build_actions at h
    by_cases hl : b.long
    · rw [if_pos hl] at h
      apply ih _ _ h
      unfold add_long_action
      rw [List.countP_append]
      simpa using hc
    · rw [if_neg hl] at h
      cases hsa : add_short_action acc b.cmd b.time with
      | none => rw [hsa] at h; cases h
      | some acts2 =>
        rw [hsa] at h
        apply ih _ _ h
        unfold add_short_action at hsa
        by_cases hany : acc.any (fun a => decide (a.type = ActionType.SHORT_PRESS))
        · rw [if_pos hany] at hsa
          cases hsa
        · rw [if_neg hany] at hsa
          injection hsa with hsa
          subst hsa
          rw [List.countP_append]
          have hz : acc.countP (fun a => decide (a.type = ActionType.SHORT_PRESS)) = 0 := by
            rw [List.countP_eq_zero]
            intro a ha hpa
            exact hany (List.any_eq_true.mpr ⟨a, ha, hpa⟩)
          simp [hz]

theorem pairwise_short_head {l : List Action}
    (hp : List.Pairwise action_le l)
    (hc : l.countP (fun a => decide (a.type = ActionType.SHORT_PRESS)) ≤ 1) :
    short_only_first l = true := by
  cases l with
  | nil => rfl
  | cons x rest =>
    unfold short_only_first
    rw [List.tail_cons, List.all_eq_true]
    intro c hcm
    by_contra hcc
    have hcshort : c.type = ActionType.SHORT_PRESS := by
      cases htc : c.type
      · exact absurd (decide_eq_true (by rw [htc])) hcc
      · rfl
    have hxc : action_le x c := (List.pairwise_cons.mp hp).1 c hcm
    by_cases hx : x.type = ActionType.SHORT_PRESS
    · have h1 : 0 < rest.countP (fun a => decide (a.type = ActionType.SHORT_PRESS)) := by
        rw [List.countP_pos_iff]
        exact ⟨c, hcm, decide_eq_true hcshort⟩
      have h2 : List.countP (fun a => decide (a.type = ActionType.SHORT_PRESS)) (x :: rest) =
          List.countP (fun a => decide (a.type = ActionType.SHORT_PRESS)) rest + 1 := by
        rw [List.countP_cons]
        simp [hx]
      omega
    · unfold action_le sort_actions_compare at hxc
      rw [if_neg hx, if_pos hcshort] at hxc
      norm_num at hxc

theorem pairwise_longs_nondecr : ∀ {l : List Action},
    List.Pairwise action_le l → (∀ c ∈ l, c.type = ActionType.LONG_PRESS) →
    longs_nondecr l = true := by
  intro l
  induction l with
  | nil => intro _ _; rfl
  | cons a s ih =>
    intro hp hall
    cases s with
    | nil => rfl
    | cons b s2 =>
      unfold longs_nondecr
      rw [Bool.and_eq_true]
      constructor
      · have hab : action_le a b :=
          (List.pairwise_cons.mp hp).1 b (List.mem_cons_self b s2)
        have ha := hall a (List.mem_cons_self a _)
        have hb := hall b (List.mem_cons_of_mem a (List.mem_cons_self b s2))
        unfold action_le sort_actions_compare at hab
        rw [if_neg (by rw [ha]; intro hx; cases hx),
            if_neg (by rw [hb]; intro hx; cases hx)] at hab
        apply decide_eq_true
        split_ifs at hab <;> omega
      · exact ih (List.pairwise_cons.mp hp).2
          (fun c hcm => hall c (List.mem_cons_of_mem a hcm))

theorem longs_nondecr_strict : ∀ {l : List Action}, longs_nondecr l = true →
    (l.map Action.trigger_time).Nodup → longs_strict l = true := by
  intro l
  induction l with
  | nil => intro _ _; rfl
  | cons a s ih =>
    cases s with
    | nil => intro _ _; rfl
    | cons b s2 =>
      intro h hnd
      unfold longs_nondecr at h
      rw [Bool.and_eq_true, decide_eq_true_eq] at h
      rw [List.map_cons, List.nodup_cons] at hnd
      obtain ⟨hna, hnd2⟩ := hnd
      unfold longs_strict
      rw [Bool.and_eq_true]
      refine ⟨decide_eq_true ?_, ih h.2 hnd2⟩
      have hne : a.trigger_time ≠ b.trigger_time := by
        intro he
        exact hna (by rw [he, List.map_cons]; exact List.mem_cons_self _ _)
      omega

/-- Counterexample to C7 as stated: the front-end accepts two Long actions
with equal trigger times (5000 ms each); after `sort_actions` the Long
trigger times are not strictly ascending. -/
theorem sort_actions_not_strict :
    build_key_actions [KeyBinding.mk true (some 5000) "a", KeyBinding.mk true (some 5000) "b"] =
      some [Action.mk ActionType.LONG_PRESS 5000 "a", Action.mk ActionType.LONG_PRESS 5000 "b"]
    ∧ sort_actions [Action.mk ActionType.LONG_PRESS 5000 "a",
          Action.mk ActionType.LONG_PRESS 5000 "b"] =
        [Action.mk ActionType.LONG_PRESS 5000 "a", Action.mk ActionType.LONG_PRESS 5000 "b"]
    ∧ longs_strict ((sort_actions [Action.mk ActionType.LONG_PRESS 5000 "a",
          Action.mk ActionType.LONG_PRESS 5000 "b"]).filter
            (fun a => decide (a.type = ActionType.LONG_PRESS))) = false := by decide

/-- **C7 (amended)**: for any action list the configuration front-end can
build, `sort_actions` yields a list with at most one Short action, sitting
at index 0 if present, followed only by Long actions whose trigger times are
non-decreasing — and strictly ascending whenever the Long trigger times are
pairwise distinct. -/
theorem sort_actions_invariant (bs : List KeyBinding) (acts : List Action)
    (h : build_key_actions bs = some acts) :
    (sort_actions acts).countP (fun a => decide (a.type = ActionType.SHORT_PRESS)) ≤ 1
    ∧ actions_sorted (sort_actions acts) = true
    ∧ ((((sort_actions acts).filter
            (fun a => decide (a.type = ActionType.LONG_PRESS))).map Action.trigger_time).Nodup →
        longs_strict ((sort_actions acts).filter
          (fun a => decide (a.type = ActionType.LONG_PRESS))) = true) := by
  have hcount : acts.countP (fun a => decide (a.type = ActionType.SHORT_PRESS)) ≤ 1 :=
    build_actions_short_count bs [] acts h (by simp)
  have hperm : List.Perm (sort_actions acts) acts := List.perm_insertionSort action_le acts
  have hcount' :
      (sort_actions acts).countP (fun a => decide (a.type = ActionType.SHORT_PRESS)) ≤ 1 := by
    rw [hperm.countP_eq]
    exact hcount
  have hpw : List.Pairwise action_le (sort_actions acts) :=
    List.sorted_insertionSort action_le acts
  have hnd : longs_nondecr ((sort_actions acts).filter
      (fun a => decide (a.type = ActionType.LONG_PRESS))) = true := by
    apply pairwise_longs_nondecr
    · exact List.Pairwise.sublist (List.filter_sublist _) hpw
    · intro c hcm
      exact of_decide_eq_true (List.mem_filter.mp hcm).2
  refine ⟨hcount', ?_, ?_⟩
  · unfold actions_sorted
    rw [Bool.and_eq_true]
    exact ⟨pairwise_short_head hpw hcount', hnd⟩
  · intro hnodup
    exact longs_nondecr_strict hnd hnodup

/-- Witness for the amended C7 theorem: bindings short@default, long@10000,
long@5000 sort to Short@1000, Long@5000, Long@10000. -/
theorem sort_actions_invariant_witness :
    build_key_actions [KeyBinding.mk false none "s", KeyBinding.mk true (some 10000) "l10",
        KeyBinding.mk true (some 5000) "l5"] =
      some [Action.mk ActionType.SHORT_PRESS 1000 "s",
        Action.mk ActionType.LONG_PRESS 10000 "l10", Action.mk ActionType.LONG_PRESS 5000 "l5"]
    ∧ ((sort_actions [Action.mk ActionType.SHORT_PRESS 1000 "s",
          Action.mk ActionType.LONG_PRESS 10000 "l10",
          Action.mk ActionType.LONG_PRESS 5000 "l5"]).countP
            (fun a => decide (a.type = ActionType.SHORT_PRESS)) ≤ 1
      ∧ actions_sorted (sort_actions [Action.mk ActionType.SHORT_PRESS 1000 "s",
          Action.mk ActionType.LONG_PRESS 10000 "l10",
          Action.mk ActionType.LONG_PRESS 5000 "l5"]) = true
      ∧ ((((sort_actions [Action.mk ActionType.SHORT_PRESS 1000 "s",
              Action.mk ActionType.LONG_PRESS 10000 "l10",
              Action.mk ActionType.LONG_PRESS 5000 "l5"]).filter
                (fun a => decide (a.type = ActionType.LONG_PRESS))).map
                  Action.trigger_time).Nodup →
          longs_strict ((sort_actions [Action.mk ActionType.SHORT_PRESS 1000 "s",
              Action.mk ActionType.LONG_PRESS 10000 "l10",
              Action.mk ActionType.LONG_PRESS 5000 "l5"]).filter
                (fun a => decide (a.type = ActionType.LONG_PRESS))) = true)) :=
  ⟨by decide,
   sort_actions_invariant
     [KeyBinding.mk false none "s", KeyBinding.mk true (some 10000) "l10",
      KeyBinding.mk true (some 5000) "l5"]
     [Action.mk ActionType.SHORT_PRESS 1000 "s",
      Action.mk ActionType.LONG_PRESS 10000 "l10", Action.mk ActionType.LONG_PRESS 5000 "l5"]
     (by decide)⟩

/-! ## C8: hangup/error handling in the dispatch loop -/

/-- Counterexample to C8 as stated: outside test mode the older revision's
dispatch loop does not reopen on a `HUP`/`ERR`-only `revents` (here
`POLLERR = 8`): it aborts with a failure exit. -/
theorem hup_v0_not_reopen :
    source_revents_outcome_v0 8 false = PollOutcome.abortFailure ∧
    source_revents_outcome_v0 8 false ≠ PollOutcome.reopenSource := by decide

/-- **C8 (amended)**: on a non-zero `revents` without `POLLIN`, in test mode
both revisions exit with success; outside test mode the newer revision
reopens the source and keeps running while the older revision terminates
with a failure status. -/
theorem hup_outcomes (revents : Nat) (tm : Bool)
    (h0 : revents ≠ 0) (hp : revents &&& POLLIN = 0) :
    source_revents_outcome revents tm =
        (if tm then PollOutcome.exitSuccess else PollOutcome.reopenSource)
    ∧ source_revents_outcome_v0 revents tm =
        (if tm then PollOutcome.exitSuccess else PollOutcome.abortFailure) := by
  unfold source_revents_outcome source_revents_outcome_v0
  rw [if_neg h0, if_neg h0, if_pos hp, if_pos hp]
  exact ⟨rfl, rfl⟩

/-- Witness for the amended C8 theorem at `revents = POLLERR` outside test
mode. -/
theorem hup_outcomes_witness :
    (8 : Nat) ≠ 0 ∧ (8 : Nat) &&& POLLIN = 0 ∧
    (source_revents_outcome 8 false =
        (if false then PollOutcome.exitSuccess else PollOutcome.reopenSource)
      ∧ source_revents_outcome_v0 8 false =
        (if false then PollOutcome.exitSuccess else PollOutcome.abortFailure)) :=
  ⟨by decide, by decide, hup_outcomes 8 false (by decide) (by decide)⟩

end Buttond
